import Mathlib

/-!
Shallow embedding of `tools/export_db_to_web_json.py`: a one-shot exporter
that reads a static list of SQLite tables and writes one JSON file per
table, best-effort decoding designated "JSON columns" embedded as text.

Modelling conventions:
* Python values flowing through the exporter (SQLite cell values and
  decoded JSON structures) are `PyVal`.  Floats are modelled as exact
  decimal values `mantissa / 10 ^ fracDigits`; SQLite BLOB (`bytes`)
  values and the non-standard `NaN`/`Infinity` literals accepted by
  `json.loads` are outside the model (no claim touches them).
* Python `dict`s, keyed by strings, are association lists built with
  `setKey`, which reproduces dict item assignment: an existing key keeps
  its position and gets the new value, a fresh key is appended.
* `json.loads` is modelled by a fuel-based recursive-descent parser over
  the RFC 8259 grammar (strict mode: unescaped control characters are
  rejected, leading zeros are rejected, the whole input must be consumed).
  Any exception it can raise is a constructor of `PyExc`; `except
  Exception` at the call site corresponds to catching every constructor.
* `json.dump(data, f, ensure_ascii=False, indent=2)` is modelled by
  `json_dumps`, producing the file's text (a Lean `String` is a sequence
  of Unicode code points; the `encoding="utf-8"` of the surrounding
  `open` call is the byte-level encoding of that text and is not
  re-modelled at the byte level).
* The filesystem visible to the script is the output directory, a map
  from file name to file text; `open(path, "w")` + `json.dump` is one
  `setKey` (overwrite semantics).
-/

/-- First value stored under key `k`, Python `d[k]` / `k in d`. -/
def getKey {α : Type} : List (String × α) → String → Option α
  | [], _ => none
  | (k', v) :: tl, k => if k' = k then some v else getKey tl k

/-- Python dict item assignment `d[k] = v`: replace in place if the key is
present, otherwise append (insertion order is preserved, as in CPython). -/
def setKey {α : Type} : List (String × α) → String → α → List (String × α)
  | [], k, v => [(k, v)]
  | (k', v') :: tl, k, v =>
      if k' = k then (k, v) :: tl else (k', v') :: setKey tl k v

/-- Python `k in d`. -/
def hasKey {α : Type} (d : List (String × α)) (k : String) : Bool :=
  (getKey d k).isSome

/-- A Python value as handled by the exporter: `None`, `bool`, `int`,
`float` (as an exact decimal `mant / 10 ^ fracDigits`), `str`, `list`,
`dict`. -/
inductive PyVal where
  | pNone
  | pBool (b : Bool)
  | pInt (n : Int)
  | pFloat (mant : Int) (fracDigits : Nat)
  | pStr (s : String)
  | pList (xs : List PyVal)
  | pDict (kvs : List (String × PyVal))

/-- Python truthiness of a `PyVal`, as tested by `if c in obj and obj[c]:`. -/
def truthy : PyVal → Bool
  | .pNone => false
  | .pBool b => b
  | .pInt n => n != 0
  | .pFloat m _ => m != 0
  | .pStr s => s ≠ ""
  | .pList xs => !xs.isEmpty
  | .pDict kvs => !kvs.isEmpty

/-- The exceptions the modelled library calls can raise.  All of them are
subclasses of Python's `Exception`, so a bare `except Exception` handler
catches every constructor. -/
inductive PyExc where
  | JSONDecodeError
  | TypeError
  | OperationalError
deriving DecidableEq, Repr

/-! ### `json.loads`, modelled -/

/-- JSON whitespace accepted by Python's decoder. -/
def isJsonWs (c : Char) : Bool :=
  c == ' ' || c == '\t' || c == '\n' || c == '\r'

def isDigitChar (c : Char) : Bool := '0' ≤ c && c ≤ '9'

def dropWs : List Char → List Char
  | [] => []
  | c :: tl => if isJsonWs c then dropWs tl else c :: tl

def spanDigits : List Char → List Char × List Char
  | [] => ([], [])
  | c :: tl =>
      if isDigitChar c then
        let (ds, rest) := spanDigits tl
        (c :: ds, rest)
      else ([], c :: tl)

def digitsVal (ds : List Char) : Nat :=
  ds.foldl (fun acc c => acc * 10 + (c.toNat - '0'.toNat)) 0

/-- Value of a hex digit, for `\uXXXX` escapes (code points 48–57 are
`0`–`9`, 97–102 are `a`–`f`, 65–70 are `A`–`F`). -/
def hexDigitVal (c : Char) : Option Nat :=
  let n := c.toNat
  if 48 ≤ n ∧ n ≤ 57 then some (n - 48)
  else if 97 ≤ n ∧ n ≤ 102 then some (n - 87)
  else if 65 ≤ n ∧ n ≤ 70 then some (n - 55)
  else none

/-- Scan a JSON string body (after the opening quote).  Strict mode:
unescaped control characters are rejected; the recognised escapes are
exactly Python's.  Lone `\uXXXX` escapes map through `Char.ofNat`
(surrogate-pair recombination is outside the model). -/
def scanString (acc : List Char) : List Char → Option (String × List Char)
  | [] => none
  | '\x22' :: rest => some (String.mk acc.reverse, rest)
  | '\\' :: rest =>
      match rest with
      | '\x22' :: tl => scanString ('\x22' :: acc) tl
      | '\\' :: tl => scanString ('\\' :: acc) tl
      | '/' :: tl => scanString ('/' :: acc) tl
      | 'b' :: tl => scanString ('\x08' :: acc) tl
      | 'f' :: tl => scanString ('\x0c' :: acc) tl
      | 'n' :: tl => scanString ('\n' :: acc) tl
      | 'r' :: tl => scanString ('\r' :: acc) tl
      | 't' :: tl => scanString ('\t' :: acc) tl
      | 'u' :: h1 :: h2 :: h3 :: h4 :: tl =>
          match hexDigitVal h1, hexDigitVal h2, hexDigitVal h3, hexDigitVal h4 with
          | some a, some b, some c, some d =>
              scanString (Char.ofNat (((a * 16 + b) * 16 + c) * 16 + d) :: acc) tl
          | _, _, _, _ => none
      | _ => none
  | c :: rest =>
      if c.toNat < 32 then none else scanString (c :: acc) rest

/-- Assemble a parsed JSON number.  Without a fraction or exponent it is a
Python `int`; otherwise a `float` with decimal exponent `exp10 - frac`. -/
def mkNumber (neg : Bool) (intDs fracDs : List Char) (hasExp : Bool) (exp10 : Int) : PyVal :=
  let sgn : Int := if neg then -1 else 1
  if fracDs.isEmpty && !hasExp then
    .pInt (sgn * digitsVal intDs)
  else
    let m : Int := sgn * digitsVal (intDs ++ fracDs)
    let e : Int := exp10 - fracDs.length
    if 0 ≤ e then .pFloat (m * 10 ^ e.toNat) 0 else .pFloat m (-e).toNat

/-- Scan a JSON number (strict grammar: `-?(0|[1-9][0-9]*)(\.[0-9]+)?([eE][+-]?[0-9]+)?`). -/
def scanNumber (cs : List Char) : Option (PyVal × List Char) :=
  let (neg, cs1) := match cs with
    | '-' :: tl => (true, tl)
    | _ => (false, cs)
  let (intDs, cs2) := spanDigits cs1
  match intDs with
  | [] => none
  | d0 :: dtl =>
      if d0 = '0' && !dtl.isEmpty then none
      else
        let (fracDs, cs3) : List Char × List Char :=
          match cs2 with
          | '.' :: tl => spanDigits tl
          | _ => ([], cs2)
        let fracAbsent : Bool := match cs2 with
          | '.' :: _ => false
          | _ => true
        if !fracAbsent && fracDs.isEmpty then none
        else
          match cs3 with
          | 'e' :: tl | 'E' :: tl =>
              let (esgn, tl1) : Int × List Char := match tl with
                | '+' :: tl' => (1, tl')
                | '-' :: tl' => (-1, tl')
                | _ => (1, tl)
              let (expDs, cs4) := spanDigits tl1
              if expDs.isEmpty then none
              else some (mkNumber neg intDs fracDs true (esgn * digitsVal expDs), cs4)
          | _ => some (mkNumber neg intDs fracDs false 0, cs3)

mutual
/-- One JSON value, leading whitespace allowed; structural on `fuel`. -/
def scanValue : Nat → List Char → Option (PyVal × List Char)
  | 0, _ => none
  | fuel + 1, cs =>
      match dropWs cs with
      | 'n' :: 'u' :: 'l' :: 'l' :: rest => some (.pNone, rest)
      | 't' :: 'r' :: 'u' :: 'e' :: rest => some (.pBool true, rest)
      | 'f' :: 'a' :: 'l' :: 's' :: 'e' :: rest => some (.pBool false, rest)
      | '\x22' :: rest =>
          match scanString [] rest with
          | some (s, rest') => some (.pStr s, rest')
          | none => none
      | '[' :: rest =>
          match dropWs rest with
          | ']' :: rest' => some (.pList [], rest')
          | more =>
              match scanElements fuel more with
              | some (xs, rest') => some (.pList xs, rest')
              | none => none
      | '\x7b' :: rest =>
          match dropWs rest with
          | '\x7d' :: rest' => some (.pDict [], rest')
          | more =>
              match scanMembers fuel more with
              | some (kvs, rest') =>
                  some (.pDict (kvs.foldl (fun d kv => setKey d kv.1 kv.2) []), rest')
              | none => none
      | other => scanNumber other

/-- One-or-more comma-separated array elements up to the closing bracket. -/
def scanElements : Nat → List Char → Option (List PyVal × List Char)
  | 0, _ => none
  | fuel + 1, cs =>
      match scanValue fuel cs with
      | none => none
      | some (v, rest) =>
          match dropWs rest with
          | ',' :: rest' =>
              match scanElements fuel rest' with
              | some (vs, rest'') => some (v :: vs, rest'')
              | none => none
          | ']' :: rest' => some ([v], rest')
          | _ => none

/-- One-or-more comma-separated object members up to the closing brace. -/
def scanMembers : Nat → List Char → Option (List (String × PyVal) × List Char)
  | 0, _ => none
  | fuel + 1, cs =>
      match dropWs cs with
      | '\x22' :: rest =>
          match scanString [] rest with
          | none => none
          | some (k, rest1) =>
              match dropWs rest1 with
              | ':' :: rest2 =>
                  match scanValue fuel rest2 with
                  | none => none
                  | some (v, rest3) =>
                      match dropWs rest3 with
                      | ',' :: rest4 =>
                          match scanMembers fuel rest4 with
                          | some (kvs, rest5) => some ((k, v) :: kvs, rest5)
                          | none => none
                      | '\x7d' :: rest4 => some ([(k, v)], rest4)
                      | _ => none
              | _ => none
      | _ => none
end

/-- Decode a whole document, requiring the entire input to be consumed
(Python raises `JSONDecodeError: Extra data` otherwise).  The fuel bound
is generous: every recursive step consumes at least one character. -/
def loadsStr (s : String) : Option PyVal :=
  match scanValue (2 * s.data.length + 4) s.data with
  | some (v, rest) => if dropWs rest = [] then some v else none
  | none => none

/-- `json.loads` as called by the exporter: a `str` argument is parsed
(`JSONDecodeError` on malformed text); any other argument raises
`TypeError` before parsing starts. -/
def json_loads : PyVal → Except PyExc PyVal
  | .pStr s =>
      match loadsStr s with
      | some v => .ok v
      | none => .error .JSONDecodeError
  | _ => .error .TypeError

/-! ### `json.dump(..., ensure_ascii=False, indent=2)`, modelled -/

/-- Lower-case hex digit character, for `\u00XX` control escapes. -/
def hexDigitChar (n : Nat) : Char :=
  match n with
  | 0 => '0' | 1 => '1' | 2 => '2' | 3 => '3' | 4 => '4'
  | 5 => '5' | 6 => '6' | 7 => '7' | 8 => '8' | 9 => '9'
  | 10 => 'a' | 11 => 'b' | 12 => 'c' | 13 => 'd' | 14 => 'e'
  | _ => 'f'

/-- JSON escaping of one character with `ensure_ascii=False`: only the
quote, the backslash and control characters are escaped; every other
character — in particular every non-ASCII character — is emitted
literally. -/
def escChar (c : Char) : List Char :=
  if c = '\x22' then ['\\', '\x22']
  else if c = '\\' then ['\\', '\\']
  else if c = '\n' then ['\\', 'n']
  else if c = '\r' then ['\\', 'r']
  else if c = '\t' then ['\\', 't']
  else if c = '\x08' then ['\\', 'b']
  else if c = '\x0c' then ['\\', 'f']
  else if c.toNat < 32 then
    ['\\', 'u', '0', '0', hexDigitChar (c.toNat / 16), hexDigitChar (c.toNat % 16)]
  else [c]

/-- A whole string, escaped. -/
def escString (cs : List Char) : List Char := (cs.map escChar).flatten

/-- A serialized JSON string literal. -/
def dumpStr (s : String) : String :=
  String.mk ('\x22' :: escString s.data ++ ['\x22'])

/-- Decimal rendering of the modelled float `m / 10 ^ f` the way
`repr(float)` renders an exact decimal value: with `f = 0` a trailing
`.0` is appended, otherwise the decimal point is placed `f` digits from
the right (zero-padded if needed). -/
def dumpFloat (m : Int) (f : Nat) : String :=
  if f = 0 then toString m ++ ".0"
  else
    let sign := if m < 0 then "-" else ""
    let ds := toString m.natAbs
    let digits := if ds.length ≤ f then
        String.mk (List.replicate (f + 1 - ds.length) '0') ++ ds
      else ds
    sign ++ String.mk (digits.data.take (digits.length - f)) ++ "." ++
      String.mk (digits.data.drop (digits.length - f))

/-- `ind` spaces, the indentation prefix of one output line. -/
def indentStr (ind : Nat) : String := String.mk (List.replicate ind ' ')

mutual
/-- Serialize one value; `ind` is the indentation column of the line the
value starts on (Python `json.dump` with `indent=2`: item separator
`",\n" + indent`, key separator `": "`). -/
def dumpVal (ind : Nat) : PyVal → String
  | .pNone => "null"
  | .pBool true => "true"
  | .pBool false => "false"
  | .pInt n => toString n
  | .pFloat m f => dumpFloat m f
  | .pStr s => dumpStr s
  | .pList xs => dumpArr ind xs
  | .pDict kvs => dumpObj ind kvs

/-- A JSON array: `[]` when empty, otherwise one element per line,
indented two deeper, closing bracket back at `ind`. -/
def dumpArr (ind : Nat) : List PyVal → String
  | [] => "[]"
  | x :: tl =>
      "[\n" ++ indentStr (ind + 2) ++ dumpVal (ind + 2) x ++
        dumpArrTail (ind + 2) tl ++ "\n" ++ indentStr ind ++ "]"

/-- Remaining array elements, each preceded by `",\n" + indent`. -/
def dumpArrTail (ind : Nat) : List PyVal → String
  | [] => ""
  | x :: tl => ",\n" ++ indentStr ind ++ dumpVal ind x ++ dumpArrTail ind tl

/-- A JSON object: `{}` when empty, otherwise one member per line. -/
def dumpObj (ind : Nat) : List (String × PyVal) → String
  | [] => "\x7b\x7d"
  | (k, v) :: tl =>
      "\x7b\n" ++ indentStr (ind + 2) ++ dumpStr k ++ ": " ++ dumpVal (ind + 2) v ++
        dumpObjTail (ind + 2) tl ++ "\n" ++ indentStr ind ++ "\x7d"

/-- Remaining object members. -/
def dumpObjTail (ind : Nat) : List (String × PyVal) → String
  | [] => ""
  | (k, v) :: tl =>
      ",\n" ++ indentStr ind ++ dumpStr k ++ ": " ++ dumpVal ind v ++ dumpObjTail ind tl
end

/-- A row document: a Python dict from column name to value. -/
abbrev Doc := List (String × PyVal)

/-- `json.dump(data, f, ensure_ascii=False, indent=2)` for the exporter's
payload, a list of row documents serialized as a top-level JSON array. -/
def json_dumps (data : List Doc) : String :=
  dumpVal 0 (.pList (data.map .pDict))

/-! ### The database and `export_table` -/

/-- One stored table: the column names in declaration order and the rows
an unfiltered `SELECT *` scan returns (each row positional, one value per
column).  `cols` models `cur.description` for that query. -/
structure TableData where
  cols : List String
  rows : List (List PyVal)

/-- The database reachable through the connection: a map from table name
to stored table. -/
abbrev Db := List (String × TableData)

/-- The body of `export_table`'s inner loop for one designated JSON
column `c`, parameterised by the library decoder `loads`:
`if c in obj and obj[c]: try: obj[c] = loads(obj[c]) except Exception:
pass`.  The bare `except Exception` corresponds to the catch-all
`.error` branch. -/
def decodeColWith (loads : PyVal → Except PyExc PyVal) (obj : Doc) (c : String) : Doc :=
  match getKey obj c with
  | none => obj
  | some v =>
      if truthy v then
        match loads v with
        | .ok j => setKey obj c j
        | .error _ => obj
      else obj

/-- `obj = dict(zip(cols, r))`. -/
def dictZip (cols : List String) (r : List PyVal) : Doc :=
  (cols.zip r).foldl (fun d kv => setKey d kv.1 kv.2) []

/-- `export_table(cur, table, json_cols)`, parameterised by the decoder:
run the full scan (an `sqlite3.OperationalError` if the table does not
exist), build one dict per row, best-effort decode the designated JSON
columns, and return the list of row documents. -/
def export_tableWith (loads : PyVal → Except PyExc PyVal) (db : Db)
    (table : String) (json_cols : List String) : Except PyExc (List Doc) :=
  match getKey db table with
  | none => .error .OperationalError
  | some td =>
      .ok (td.rows.map fun r => json_cols.foldl (decodeColWith loads) (dictZip td.cols r))

/-- `export_table` with the real `json.loads`. -/
def export_table (db : Db) (table : String) (json_cols : List String) :
    Except PyExc (List Doc) :=
  export_tableWith json_loads db table json_cols

/-- One decode step with the real `json.loads`. -/
def decodeCol (obj : Doc) (c : String) : Doc := decodeColWith json_loads obj c

/-! ### `main`: the table list and the run loop -/

/-- The static `TABLES` list: `(table name, designated JSON columns)`. -/
def TABLES : List (String × List String) :=
  [ ("elements", []),
    ("element_matchups", []),
    ("rarities", []),
    ("growth_stages", []),
    ("roles", ["stat_bias_json"]),
    ("natures", []),
    ("env_tags", []),
    ("training_styles", []),
    ("species", []),
    ("monster_forms", []),
    ("skills", []),
    ("skill_effects", ["condition_json"]),
    ("form_skills", []),
    ("status_effects", []),
    ("status_effect_components", ["condition_json"]),
    ("synergy_rules", ["condition_json", "modifier_json"]),
    ("items", []),
    ("egg_properties", []),
    ("evolutions", []),
    ("evolution_conditions", []) ]

/-- The `for table, json_cols in TABLES:` loop.  `files` is the output
directory's contents (file name, relative to the output directory, to
file text; writing is overwrite).  `att` is the ordered trace of tables
whose export has been attempted.  The loop stops at the first exception,
which propagates; on success the next file is written and the loop
continues. -/
def runTablesWith (loads : PyVal → Except PyExc PyVal) (db : Db) :
    List (String × List String) → List (String × String) → List String →
      List (String × String) × List String × Option PyExc
  | [], files, att => (files, att, none)
  | (t, jc) :: rest, files, att =>
      match export_tableWith loads db t jc with
      | .error e => (files, att ++ [t], some e)
      | .ok data =>
          runTablesWith loads db rest
            (setKey files (t ++ ".json") (json_dumps data)) (att ++ [t])

/-- Observable outcome of `main` after argument parsing: the files
written into the output directory, the ordered trace of tables attempted,
whether `con.close()` was executed, and the exception that terminated the
process, if any.  `con.close()` is the statement after the loop, with no
`try`/`finally` around it, so it runs exactly when the loop finishes
without an exception. -/
structure RunResult where
  files : List (String × String)
  attempted : List String
  closed : Bool
  error : Option PyExc

/-- The body of `main` from `cur = con.cursor()` on, over an already
connected database, parameterised by the decoder. -/
def runWith (loads : PyVal → Except PyExc PyVal) (db : Db) : RunResult :=
  match runTablesWith loads db TABLES [] [] with
  | (files, att, e) => { files := files, attempted := att, closed := e.isNone, error := e }

/-- `sqlite3.connect(path)`: opening an existing database file yields its
contents; opening a path with no file at it (in a writable directory,
the default mode) CREATES a fresh empty database — it does not fail.
The argument is the file found at the `--db` path, `none` when the path
does not exist. -/
def sqlite3_connect : Option Db → Db
  | some db => db
  | none => []

/-- `main` after `os.makedirs(out, exist_ok=True)`: connect (creating an
empty database when the file is missing) and run the export loop. -/
def run (dbFile : Option Db) : RunResult :=
  runWith json_loads (sqlite3_connect dbFile)

/-! ### Association-list lemmas -/

theorem getKey_setKey_self {α : Type} (d : List (String × α)) (k : String) (v : α) :
    getKey (setKey d k v) k = some v := by
  induction d with
  | nil => simp [setKey, getKey]
  | cons hd tl ih =>
      obtain ⟨k', v'⟩ := hd
      by_cases h : k' = k
      · simp [setKey, getKey, h]
      · simp [setKey, getKey, h, ih]

theorem setKey_eq_append {α : Type} (d : List (String × α)) (k : String) (v : α)
    (h : getKey d k = none) : setKey d k v = d ++ [(k, v)] := by
  induction d with
  | nil => simp [setKey]
  | cons hd tl ih =>
      obtain ⟨k', v'⟩ := hd
      by_cases hk : k' = k
      · simp [getKey, hk] at h
      · simp only [getKey, hk, if_false] at h
        simp [setKey, hk, ih h]

theorem keys_setKey_of_mem {α : Type} (d : List (String × α)) (k : String) (v : α)
    (h : getKey d k ≠ none) : (setKey d k v).map Prod.fst = d.map Prod.fst := by
  induction d with
  | nil => simp [getKey] at h
  | cons hd tl ih =>
      obtain ⟨k', v'⟩ := hd
      by_cases hk : k' = k
      · simp [setKey, hk]
      · simp only [getKey, hk, if_false] at h
        simp [setKey, hk, ih h]

theorem getKey_append {α : Type} (d₁ d₂ : List (String × α)) (k : String) :
    getKey (d₁ ++ d₂) k = ((getKey d₁ k).rec (getKey d₂ k) fun v => some v) := by
  induction d₁ with
  | nil => simp [getKey]
  | cons hd tl ih =>
      obtain ⟨k', v'⟩ := hd
      by_cases hk : k' = k
      · simp [getKey, hk]
      · simp [getKey, hk, ih]

theorem foldl_setKey_fresh {α : Type} :
    ∀ (ps : List (String × α)) (d : List (String × α)),
      (∀ p ∈ ps, getKey d p.1 = none) → (ps.map Prod.fst).Nodup →
      ps.foldl (fun acc kv => setKey acc kv.1 kv.2) d = d ++ ps
  | [], d, _, _ => by simp
  | (k, v) :: tl, d, hfresh, hnd => by
      have hk : getKey d k = none := hfresh (k, v) (by simp)
      have step : setKey d k v = d ++ [(k, v)] := setKey_eq_append d k v hk
      have hnd' : (tl.map Prod.fst).Nodup := (List.nodup_cons.mp hnd).2
      have hknotin : k ∉ tl.map Prod.fst := (List.nodup_cons.mp hnd).1
      have hfresh' : ∀ p ∈ tl, getKey (d ++ [(k, v)]) p.1 = none := by
        intro p hp
        rw [getKey_append]
        have h1 : getKey d p.1 = none := hfresh p (by simp [hp])
        have h2 : p.1 ≠ k := by
          intro hEq
          exact hknotin (hEq ▸ List.mem_map_of_mem Prod.fst hp)
        have h2' : ¬ k = p.1 := fun hEq => h2 hEq.symm
        simp [h1, getKey, h2']
      calc ((k, v) :: tl).foldl (fun acc kv => setKey acc kv.1 kv.2) d
          = tl.foldl (fun acc kv => setKey acc kv.1 kv.2) (d ++ [(k, v)]) := by
            simp [List.foldl_cons, step]
        _ = (d ++ [(k, v)]) ++ tl := foldl_setKey_fresh tl (d ++ [(k, v)]) hfresh' hnd'
        _ = d ++ (k, v) :: tl := by simp

theorem getKey_of_mem_map {α β : Type} (f : α → String) (g : α → β) :
    ∀ (l : List α) (q : α), q ∈ l → (l.map f).Nodup →
      getKey (l.map fun x => (f x, g x)) (f q) = some (g q)
  | [], q, hq, _ => by simp at hq
  | x :: tl, q, hq, hnd => by
      rcases List.mem_cons.mp hq with rfl | htl
      · simp [getKey]
      · have hnotin : f x ∉ tl.map f := (List.nodup_cons.mp hnd).1
        have hne : f x ≠ f q := by
          intro hEq
          exact hnotin (hEq ▸ List.mem_map_of_mem f htl)
        simp only [List.map_cons, getKey, hne, if_false]
        exact getKey_of_mem_map f g tl q htl (List.nodup_cons.mp hnd).2

/-! ### Decode-step and `export_table` lemmas -/

theorem decodeColWith_of_ok (loads : PyVal → Except PyExc PyVal) (obj : Doc) (c : String)
    (v j : PyVal) (hget : getKey obj c = some v) (ht : truthy v = true)
    (hl : loads v = .ok j) : decodeColWith loads obj c = setKey obj c j := by
  simp [decodeColWith, hget, ht, hl]

theorem decodeColWith_of_error (loads : PyVal → Except PyExc PyVal) (obj : Doc) (c : String)
    (v : PyVal) (e : PyExc) (hget : getKey obj c = some v) (ht : truthy v = true)
    (hl : loads v = .error e) : decodeColWith loads obj c = obj := by
  simp [decodeColWith, hget, ht, hl]

theorem decodeColWith_of_falsy (loads : PyVal → Except PyExc PyVal) (obj : Doc) (c : String)
    (v : PyVal) (hget : getKey obj c = some v) (ht : truthy v = false) :
    decodeColWith loads obj c = obj := by
  simp [decodeColWith, hget, ht]

theorem export_tableWith_of_mem (loads : PyVal → Except PyExc PyVal) (db : Db)
    (t : String) (jc : List String) (td : TableData) (h : getKey db t = some td) :
    export_tableWith loads db t jc =
      .ok (td.rows.map fun r => jc.foldl (decodeColWith loads) (dictZip td.cols r)) := by
  simp [export_tableWith, h]

theorem export_tableWith_error_eq (loads : PyVal → Except PyExc PyVal) (db : Db)
    (t : String) (jc : List String) (e : PyExc)
    (h : export_tableWith loads db t jc = .error e) : e = .OperationalError := by
  unfold export_tableWith at h
  cases hget : getKey db t with
  | none => rw [hget] at h; exact (Except.error.injEq _ _).mp h.symm
  | some td => rw [hget] at h; exact absurd h (by simp)

theorem export_tableWith_isOk (loads : PyVal → Except PyExc PyVal) (db : Db)
    (t : String) (jc : List String) (h : hasKey db t = true) :
    ∃ docs, export_tableWith loads db t jc = .ok docs := by
  unfold hasKey at h
  cases hget : getKey db t with
  | none => rw [hget] at h; simp at h
  | some td => exact ⟨_, export_tableWith_of_mem loads db t jc td hget⟩

/-! ### Row-document key-set lemmas -/

theorem map_fst_zip_sublist {α β : Type} :
    ∀ (l₁ : List α) (l₂ : List β), List.Sublist ((l₁.zip l₂).map Prod.fst) l₁
  | [], _ => by simp
  | _ :: _, [] => by simp
  | a :: as, b :: bs => by
      simpa using List.Sublist.cons₂ a (map_fst_zip_sublist as bs)

theorem dictZip_eq_zip (cols : List String) (r : List PyVal) (hnd : cols.Nodup) :
    dictZip cols r = cols.zip r := by
  unfold dictZip
  have hfresh : ∀ p ∈ cols.zip r, getKey ([] : Doc) p.1 = none := by
    intro p _; rfl
  have hnd' : ((cols.zip r).map Prod.fst).Nodup :=
    hnd.sublist (map_fst_zip_sublist cols r)
  simpa using foldl_setKey_fresh (cols.zip r) [] hfresh hnd'

theorem keys_dictZip (cols : List String) (r : List PyVal) (hnd : cols.Nodup)
    (hlen : r.length = cols.length) : (dictZip cols r).map Prod.fst = cols := by
  rw [dictZip_eq_zip cols r hnd]
  exact List.map_fst_zip cols r (le_of_eq hlen.symm)

theorem keys_decodeColWith (loads : PyVal → Except PyExc PyVal) (obj : Doc) (c : String) :
    (decodeColWith loads obj c).map Prod.fst = obj.map Prod.fst := by
  unfold decodeColWith
  cases hget : getKey obj c with
  | none => rfl
  | some v =>
      by_cases ht : truthy v = true
      · cases hl : loads v with
        | ok j =>
            simp only [ht, if_true, hl]
            exact keys_setKey_of_mem obj c j (by simp [hget])
        | error e => simp [ht, hl]
      · simp [Bool.eq_false_iff.mpr ht]

theorem keys_foldl_decode (loads : PyVal → Except PyExc PyVal) :
    ∀ (jcs : List String) (obj : Doc),
      (jcs.foldl (decodeColWith loads) obj).map Prod.fst = obj.map Prod.fst
  | [], obj => rfl
  | c :: tl, obj => by
      rw [List.foldl_cons, keys_foldl_decode loads tl (decodeColWith loads obj c),
        keys_decodeColWith loads obj c]

/-! ### Run-loop lemmas -/

/-- The documents `export_table` produces for one table descriptor (empty
for an absent table; only used under a presence hypothesis). -/
def docsOf (loads : PyVal → Except PyExc PyVal) (db : Db) (p : String × List String) :
    List Doc :=
  match getKey db p.1 with
  | some td => td.rows.map fun r => p.2.foldl (decodeColWith loads) (dictZip td.cols r)
  | none => []

theorem export_tableWith_eq_docsOf (loads : PyVal → Except PyExc PyVal) (db : Db)
    (p : String × List String) (h : hasKey db p.1 = true) :
    export_tableWith loads db p.1 p.2 = .ok (docsOf loads db p) := by
  unfold hasKey at h
  cases hget : getKey db p.1 with
  | none => rw [hget] at h; simp at h
  | some td => rw [export_tableWith_of_mem loads db p.1 p.2 td hget]; simp [docsOf, hget]

theorem runTablesWith_all_present (loads : PyVal → Except PyExc PyVal) (db : Db) :
    ∀ (ts : List (String × List String)) (files : List (String × String)) (att : List String),
      (∀ p ∈ ts, hasKey db p.1 = true) →
      runTablesWith loads db ts files att =
        (ts.foldl (fun fs p => setKey fs (p.1 ++ ".json") (json_dumps (docsOf loads db p))) files,
         att ++ ts.map Prod.fst, none)
  | [], files, att, _ => by simp [runTablesWith]
  | (t, jc) :: tl, files, att, hall => by
      have hhead : hasKey db t = true := hall (t, jc) (by simp)
      have hexp := export_tableWith_eq_docsOf loads db (t, jc) hhead
      have htl : ∀ p ∈ tl, hasKey db p.1 = true := fun p hp => hall p (by simp [hp])
      rw [runTablesWith, hexp]
      dsimp only
      rw [runTablesWith_all_present loads db tl
          (setKey files (t ++ ".json") (json_dumps (docsOf loads db (t, jc)))) (att ++ [t]) htl]
      simp

theorem runTablesWith_aborts (loads : PyVal → Except PyExc PyVal) (db : Db)
    (t : String) (jc : List String) (post : List (String × List String)) :
    ∀ (pre : List (String × List String)) (files : List (String × String)) (att : List String),
      (∀ p ∈ pre, hasKey db p.1 = true) → hasKey db t = false →
      runTablesWith loads db (pre ++ (t, jc) :: post) files att =
        (pre.foldl (fun fs p => setKey fs (p.1 ++ ".json") (json_dumps (docsOf loads db p))) files,
         att ++ pre.map Prod.fst ++ [t], some .OperationalError)
  | [], files, att, _, hmiss => by
      have hget : getKey db t = none := by
        unfold hasKey at hmiss
        cases h : getKey db t with
        | none => rfl
        | some td => rw [h] at hmiss; simp at hmiss
      simp [runTablesWith, export_tableWith, hget]
  | (t', jc') :: tl, files, att, hpre, hmiss => by
      have hhead : hasKey db t' = true := hpre (t', jc') (by simp)
      have hexp := export_tableWith_eq_docsOf loads db (t', jc') hhead
      have htl : ∀ p ∈ tl, hasKey db p.1 = true := fun p hp => hpre p (by simp [hp])
      rw [List.cons_append, runTablesWith, hexp]
      dsimp only
      rw [runTablesWith_aborts loads db t jc post tl
          (setKey files (t' ++ ".json") (json_dumps (docsOf loads db (t', jc')))) (att ++ [t'])
          htl hmiss]
      simp

theorem runTablesWith_no_error_iff (loads : PyVal → Except PyExc PyVal) (db : Db) :
    ∀ (ts : List (String × List String)) (files : List (String × String)) (att : List String),
      (runTablesWith loads db ts files att).2.2 = none ↔ ∀ p ∈ ts, hasKey db p.1 = true
  | [], files, att => by simp [runTablesWith]
  | (t, jc) :: tl, files, att => by
      constructor
      · intro hnone
        cases hexp : export_tableWith loads db t jc with
        | error e =>
            rw [runTablesWith, hexp] at hnone
            simp at hnone
        | ok data =>
            have hhead : hasKey db t = true := by
              unfold hasKey
              cases hget : getKey db t with
              | none => rw [export_tableWith] at hexp; rw [hget] at hexp; simp at hexp
              | some td => simp
            rw [runTablesWith, hexp] at hnone
            have htl := (runTablesWith_no_error_iff loads db tl
              (setKey files (t ++ ".json") (json_dumps data)) (att ++ [t])).mp hnone
            intro p hp
            rcases List.mem_cons.mp hp with rfl | hmem
            · exact hhead
            · exact htl p hmem
      · intro hall
        rw [runTablesWith_all_present loads db ((t, jc) :: tl) files att hall]

theorem export_tableWith_congr (loads : PyVal → Except PyExc PyVal) (db₁ db₂ : Db)
    (t : String) (jc : List String) (h : getKey db₁ t = getKey db₂ t) :
    export_tableWith loads db₁ t jc = export_tableWith loads db₂ t jc := by
  unfold export_tableWith
  rw [h]

theorem runTablesWith_congr (loads : PyVal → Except PyExc PyVal) (db₁ db₂ : Db) :
    ∀ (ts : List (String × List String)) (files : List (String × String)) (att : List String),
      (∀ p ∈ ts, getKey db₁ p.1 = getKey db₂ p.1) →
      runTablesWith loads db₁ ts files att = runTablesWith loads db₂ ts files att
  | [], _, _, _ => rfl
  | (t, jc) :: tl, files, att, h => by
      have hhead : getKey db₁ t = getKey db₂ t := h (t, jc) (by simp)
      have htl : ∀ p ∈ tl, getKey db₁ p.1 = getKey db₂ p.1 := fun p hp => h p (by simp [hp])
      rw [runTablesWith, runTablesWith, export_tableWith_congr loads db₁ db₂ t jc hhead]
      cases export_tableWith loads db₂ t jc with
      | error e => rfl
      | ok data =>
          dsimp only
          exact runTablesWith_congr loads db₁ db₂ tl
            (setKey files (t ++ ".json") (json_dumps data)) (att ++ [t]) htl

theorem foldl_write_eq_map (loads : PyVal → Except PyExc PyVal) (db : Db)
    (ts : List (String × List String))
    (hnd : (ts.map fun p => p.1 ++ ".json").Nodup) :
    ts.foldl (fun fs p => setKey fs (p.1 ++ ".json") (json_dumps (docsOf loads db p))) [] =
      ts.map fun p => (p.1 ++ ".json", json_dumps (docsOf loads db p)) := by
  have hfold :
      ts.foldl (fun fs p => setKey fs (p.1 ++ ".json") (json_dumps (docsOf loads db p))) [] =
        (ts.map fun p => (p.1 ++ ".json", json_dumps (docsOf loads db p))).foldl
          (fun acc kv => setKey acc kv.1 kv.2) [] := by
    rw [List.foldl_map]
  rw [hfold]
  have hkeys : ((ts.map fun p => (p.1 ++ ".json", json_dumps (docsOf loads db p))).map
      Prod.fst) = ts.map fun p => p.1 ++ ".json" := by
    rw [List.map_map]; rfl
  have hnd' : ((ts.map fun p => (p.1 ++ ".json", json_dumps (docsOf loads db p))).map
      Prod.fst).Nodup := by rw [hkeys]; exact hnd
  simpa using foldl_setKey_fresh _ [] (fun p _ => rfl) hnd'

theorem docsOf_length (loads : PyVal → Except PyExc PyVal) (db : Db)
    (p : String × List String) (td : TableData) (h : getKey db p.1 = some td) :
    (docsOf loads db p).length = td.rows.length := by
  unfold docsOf
  rw [h]
  exact List.length_map _ _

theorem tables_fileNames_nodup : (TABLES.map fun p => p.1 ++ ".json").Nodup := by decide

/-! ### Escaping lemmas: non-ASCII characters survive `ensure_ascii=False` -/

theorem hexDigitChar_toNat_lt (n : Nat) : (hexDigitChar n).toNat < 128 := by
  unfold hexDigitChar
  split <;> decide

theorem escChar_of_plain (c : Char) (hc : 128 ≤ c.toNat) : escChar c = [c] := by
  have h1 : ¬ c = '\x22' := fun h => absurd (h ▸ hc) (by decide)
  have h2 : ¬ c = '\\' := fun h => absurd (h ▸ hc) (by decide)
  have h3 : ¬ c = '\n' := fun h => absurd (h ▸ hc) (by decide)
  have h4 : ¬ c = '\r' := fun h => absurd (h ▸ hc) (by decide)
  have h5 : ¬ c = '\t' := fun h => absurd (h ▸ hc) (by decide)
  have h6 : ¬ c = '\x08' := fun h => absurd (h ▸ hc) (by decide)
  have h7 : ¬ c = '\x0c' := fun h => absurd (h ▸ hc) (by decide)
  have h8 : ¬ c.toNat < 32 := by omega
  simp [escChar, h1, h2, h3, h4, h5, h6, h7, h8]

theorem mem_escChar_toNat_lt (x y : Char) (hx : x.toNat < 128) (hy : y ∈ escChar x) :
    y.toNat < 128 := by
  unfold escChar at hy
  repeat' split at hy
  all_goals simp only [List.mem_cons, List.not_mem_nil, or_false] at hy
  all_goals first
    | (rcases hy with rfl | rfl | rfl | rfl | rfl | rfl <;>
        first | decide | exact hexDigitChar_toNat_lt _)
    | (rcases hy with rfl | rfl <;> decide)
    | (rcases hy with rfl; exact hx)

theorem count_escChar (c x : Char) (hc : 128 ≤ c.toNat) :
    (escChar x).count c = [x].count c := by
  by_cases hx : 128 ≤ x.toNat
  · rw [escChar_of_plain x hx]
  · have hx' : x.toNat < 128 := by omega
    have hcx : ¬ x = c := fun h => absurd (h ▸ hx') (by omega)
    have hnot : c ∉ escChar x := by
      intro hmem
      exact absurd (mem_escChar_toNat_lt x c hx' hmem) (by omega)
    rw [List.count_eq_zero.mpr hnot]
    simp [List.count_cons, hcx]

theorem count_escString (c : Char) (hc : 128 ≤ c.toNat) :
    ∀ cs : List Char, (escString cs).count c = cs.count c
  | [] => rfl
  | x :: tl => by
      have hstep : escString (x :: tl) = escChar x ++ escString tl := by
        simp [escString]
      rw [hstep, List.count_append, count_escString c hc tl, count_escChar c x hc]
      simp [List.count_cons]
      omega

theorem count_dumpStr (s : String) (c : Char) (hc : 128 ≤ c.toNat) :
    (dumpStr s).data.count c = s.data.count c := by
  have hne1 : ¬ c = '\x22' := fun h => absurd (h ▸ hc) (by decide)
  have hne2 : ¬ ('\x22' : Char) = c := fun h => hne1 h.symm
  unfold dumpStr
  show (('\x22' :: (escString s.data ++ ['\x22'])).count c) = s.data.count c
  rw [List.count_cons, List.count_append, count_escString c hc s.data]
  simp [List.count_cons, hne2]

/-! ### Concrete data for witnesses and counterexamples -/

/-- A row document with invalid JSON text in a designated column. -/
def docBad : Doc := [("condition_json", .pStr "\x7bbad")]

/-- A row document with valid JSON text in a designated column. -/
def docGood : Doc := [("stat_bias_json", .pStr "\x7b\x22atk\x22: 1.2\x7d")]

/-- A row document with a truthy non-string value in a designated column. -/
def docInt : Doc := [("condition_json", .pInt 5)]

/-- A row document with falsy values in three designated columns. -/
def docFalsy : Doc :=
  [("condition_json", .pStr ""), ("modifier_json", .pNone), ("stat_bias_json", .pInt 0)]

/-- A decoder that would replace any value it is given; used to witness
that falsy values never reach the decoder. -/
def rewriteAll : PyVal → Except PyExc PyVal := fun _ => .ok (.pInt 999)

/-- A one-column, one-row table. -/
def fullTd : TableData := ⟨["id"], [[.pInt 1]]⟩

/-- A database containing every listed table. -/
def dbFull : Db := TABLES.map fun p => (p.1, fullTd)

/-- `dbFull` plus one table the static list does not mention. -/
def dbExtra : Db := dbFull ++ [("sqlite_sequence", fullTd)]

/-- A database containing only the first listed table. -/
def dbOne : Db := [("elements", fullTd)]

/-- A database containing only the first two listed tables. -/
def dbTwo : Db := [("elements", fullTd), ("element_matchups", fullTd)]

/-- The `roles` table with its designated JSON column populated. -/
def rolesTd : TableData :=
  ⟨["id", "stat_bias_json"], [[.pInt 1, .pStr "\x7b\x22atk\x22: 1.2\x7d"]]⟩

/-- A database holding just the `roles` table. -/
def dbRoles : Db := [("roles", rolesTd)]

/-! ### The claims -/

/-- C1: for every row document and designated JSON column whose value is
present and truthy, the exporter attempts `json.loads` on it: on success
the value is replaced by the parsed structure; on failure the original
raw value is kept unchanged; and no decode failure ever escapes
`export_table` — its only possible error is the table scan's
`OperationalError`, so it returns normally on every decode outcome. -/
theorem c1_decode_best_effort :
    (∀ (obj : Doc) (c : String) (v j : PyVal), getKey obj c = some v → truthy v = true →
       json_loads v = .ok j → decodeCol obj c = setKey obj c j) ∧
    (∀ (obj : Doc) (c : String) (v : PyVal) (e : PyExc), getKey obj c = some v →
       truthy v = true → json_loads v = .error e → decodeCol obj c = obj) ∧
    (∀ (db : Db) (t : String) (jc : List String) (e : PyExc),
       export_table db t jc = .error e → e = .OperationalError) := by
  refine ⟨?_, ?_, ?_⟩
  · intro obj c v j hget ht hl
    exact decodeColWith_of_ok json_loads obj c v j hget ht hl
  · intro obj c v e hget ht hl
    exact decodeColWith_of_error json_loads obj c v e hget ht hl
  · intro db t jc e h
    exact export_tableWith_error_eq json_loads db t jc e h

/-- C1 witness: `'{"atk": 1.2}'` decodes and replaces the value; `'{bad'`
fails to decode and the raw string is kept. -/
theorem c1_decode_best_effort_witness :
    decodeCol docGood "stat_bias_json" =
      setKey docGood "stat_bias_json" (.pDict [("atk", .pFloat 12 1)]) ∧
    decodeCol docBad "condition_json" = docBad :=
  ⟨c1_decode_best_effort.1 docGood "stat_bias_json" (.pStr "\x7b\x22atk\x22: 1.2\x7d")
      (.pDict [("atk", .pFloat 12 1)]) rfl rfl rfl,
   c1_decode_best_effort.2.1 docBad "condition_json" (.pStr "\x7bbad") .JSONDecodeError
      rfl rfl rfl⟩

/-- C4: a designated JSON column holding a falsy value (empty string,
`None`, `0`) is exported unchanged, and the decode is not even attempted:
the outcome is the same for every conceivable decoder `loads`. -/
theorem c4_falsy_skipped (loads : PyVal → Except PyExc PyVal) (obj : Doc) (c : String)
    (v : PyVal) (hget : getKey obj c = some v) (ht : truthy v = false) :
    decodeColWith loads obj c = obj :=
  decodeColWith_of_falsy loads obj c v hget ht

/-- C4 witness: empty string, `None` and `0` are all left alone even by a
decoder that rewrites everything it sees. -/
theorem c4_falsy_skipped_witness :
    decodeColWith rewriteAll docFalsy "condition_json" = docFalsy ∧
    decodeColWith rewriteAll docFalsy "modifier_json" = docFalsy ∧
    decodeColWith rewriteAll docFalsy "stat_bias_json" = docFalsy :=
  ⟨c4_falsy_skipped rewriteAll docFalsy "condition_json" (.pStr "") rfl rfl,
   c4_falsy_skipped rewriteAll docFalsy "modifier_json" .pNone rfl rfl,
   c4_falsy_skipped rewriteAll docFalsy "stat_bias_json" (.pInt 0) rfl rfl⟩

/-- C10: the handler catches every exception, not only JSON syntax
errors: a truthy non-string value (e.g. a non-zero integer) makes
`json.loads` raise `TypeError`, which is swallowed just the same and the
value is exported unchanged; consequently `export_table` with a present
table always returns a result, whatever the decode attempts raise. -/
theorem c10_catch_all_exceptions :
    (∀ n : Int, n ≠ 0 → json_loads (.pInt n) = .error .TypeError) ∧
    (∀ (obj : Doc) (c : String) (v : PyVal) (e : PyExc), getKey obj c = some v →
       truthy v = true → json_loads v = .error e → decodeCol obj c = obj) ∧
    (∀ (db : Db) (t : String) (jc : List String), hasKey db t = true →
       ∃ docs, export_table db t jc = .ok docs) := by
  refine ⟨fun n _ => rfl, ?_, ?_⟩
  · intro obj c v e hget ht hl
    exact decodeColWith_of_error json_loads obj c v e hget ht hl
  · intro db t jc h
    exact export_tableWith_isOk json_loads db t jc h

/-- C10 witness: the integer `5` is truthy, raises `TypeError` in the
decoder, is kept unchanged, and the surrounding export still succeeds. -/
theorem c10_catch_all_exceptions_witness :
    json_loads (.pInt 5) = .error .TypeError ∧
    decodeCol docInt "condition_json" = docInt ∧
    ∃ docs, export_table [("skill_effects", ⟨["condition_json"], [[.pInt 5]]⟩)]
        "skill_effects" ["condition_json"] = .ok docs :=
  ⟨c10_catch_all_exceptions.1 5 (by decide),
   c10_catch_all_exceptions.2.1 docInt "condition_json" (.pInt 5) .TypeError rfl rfl rfl,
   c10_catch_all_exceptions.2.2 [("skill_effects", ⟨["condition_json"], [[.pInt 5]]⟩)]
     "skill_effects" ["condition_json"] rfl⟩

/-- C5: every row document an export produces has exactly the column
names reported by the scan's metadata as its key set (in column order);
JSON-column decoding replaces values in place and never changes the key
set. -/
theorem c5_keyset_invariant (db : Db) (t : String) (jc : List String) (td : TableData)
    (docs : List Doc) (htd : getKey db t = some td) (hnd : td.cols.Nodup)
    (hlen : ∀ r ∈ td.rows, r.length = td.cols.length)
    (hexp : export_table db t jc = .ok docs) :
    ∀ doc ∈ docs, doc.map Prod.fst = td.cols := by
  have h2 := export_tableWith_of_mem json_loads db t jc td htd
  rw [export_table] at hexp
  rw [h2] at hexp
  injection hexp with hdocs
  intro doc hdoc
  rw [← hdocs] at hdoc
  obtain ⟨r, hr, rfl⟩ := List.mem_map.mp hdoc
  rw [keys_foldl_decode, keys_dictZip td.cols r hnd (hlen r hr)]

/-- C5 witness: the `roles` row keeps the key set `id, stat_bias_json`
after its JSON column is decoded from a string into a dict. -/
theorem c5_keyset_invariant_witness :
    ([("id", PyVal.pInt 1),
      ("stat_bias_json", PyVal.pDict [("atk", PyVal.pFloat 12 1)])].map Prod.fst) =
      rolesTd.cols :=
  c5_keyset_invariant dbRoles "roles" ["stat_bias_json"] rolesTd
    [[("id", PyVal.pInt 1), ("stat_bias_json", PyVal.pDict [("atk", PyVal.pFloat 12 1)])]]
    rfl (by decide) (by decide) rfl
    [("id", PyVal.pInt 1), ("stat_bias_json", PyVal.pDict [("atk", PyVal.pFloat 12 1)])]
    (List.mem_singleton.mpr rfl)

/-- `runWith` projected to the files written. -/
theorem runWith_files (loads : PyVal → Except PyExc PyVal) (db : Db) :
    (runWith loads db).files = (runTablesWith loads db TABLES [] []).1 := by
  unfold runWith
  rcases runTablesWith loads db TABLES [] [] with ⟨files, att, e⟩
  rfl

/-- `runWith` projected to the trace of attempted tables. -/
theorem runWith_attempted (loads : PyVal → Except PyExc PyVal) (db : Db) :
    (runWith loads db).attempted = (runTablesWith loads db TABLES [] []).2.1 := by
  unfold runWith
  rcases runTablesWith loads db TABLES [] [] with ⟨files, att, e⟩
  rfl

/-- `runWith` projected to the terminating exception. -/
theorem runWith_error (loads : PyVal → Except PyExc PyVal) (db : Db) :
    (runWith loads db).error = (runTablesWith loads db TABLES [] []).2.2 := by
  unfold runWith
  rcases runTablesWith loads db TABLES [] [] with ⟨files, att, e⟩
  rfl

/-- `runWith` projected to whether `con.close()` ran. -/
theorem runWith_closed (loads : PyVal → Except PyExc PyVal) (db : Db) :
    (runWith loads db).closed = (runTablesWith loads db TABLES [] []).2.2.isNone := by
  unfold runWith
  rcases runTablesWith loads db TABLES [] [] with ⟨files, att, e⟩
  rfl

theorem getKey_setKey_ne {α : Type} (d : List (String × α)) (k : String) (v : α)
    (n : String) (h : ¬ k = n) : getKey (setKey d k v) n = getKey d n := by
  induction d with
  | nil => simp [setKey, getKey, h]
  | cons hd tl ih =>
      obtain ⟨k', v'⟩ := hd
      by_cases hk : k' = k
      · subst hk
        simp [setKey, getKey, h]
      · simp [setKey, getKey, hk, ih]

/-- The loop never touches a file name outside its table list. -/
theorem runTablesWith_getKey_untouched (loads : PyVal → Except PyExc PyVal) (db : Db) :
    ∀ (ts : List (String × List String)) (files : List (String × String)) (att : List String)
      (n : String), n ∉ ts.map (fun p => p.1 ++ ".json") →
      getKey (runTablesWith loads db ts files att).1 n = getKey files n
  | [], _, _, _, _ => rfl
  | (t, jc) :: tl, files, att, n, hn => by
      have hne : ¬ (t ++ ".json") = n := by
        intro hEq
        exact hn (by simp [← hEq])
      have htl : n ∉ tl.map fun p => p.1 ++ ".json" := by
        intro hmem
        exact hn (by simp [hmem])
      rw [runTablesWith]
      cases export_tableWith loads db t jc with
      | error e => rfl
      | ok data =>
          dsimp only
          rw [runTablesWith_getKey_untouched loads db tl _ _ n htl,
            getKey_setKey_ne files (t ++ ".json") (json_dumps data) n hne]

/-- After a fully successful loop, the file of each listed table holds the
serialization of exactly that table's documents. -/
theorem runTablesWith_getKey_hit (loads : PyVal → Except PyExc PyVal) (db : Db) :
    ∀ (ts : List (String × List String)) (files : List (String × String)) (att : List String)
      (q : String × List String), q ∈ ts → (∀ p ∈ ts, hasKey db p.1 = true) →
      (ts.map fun p => p.1 ++ ".json").Nodup →
      getKey (runTablesWith loads db ts files att).1 (q.1 ++ ".json") =
        some (json_dumps (docsOf loads db q))
  | [], _, _, _, hq, _, _ => by cases hq
  | (t, jc) :: tl, files, att, q, hq, hall, hnd => by
      have hexp := export_tableWith_eq_docsOf loads db (t, jc) (hall (t, jc) (by simp))
      rw [runTablesWith, hexp]
      dsimp only
      rcases List.mem_cons.mp hq with rfl | hmem
      · have hnotin : ((t, jc).1 ++ ".json") ∉ tl.map fun p => p.1 ++ ".json" :=
          (List.nodup_cons.mp hnd).1
        rw [runTablesWith_getKey_untouched loads db tl _ _ _ hnotin]
        exact getKey_setKey_self files ((t, jc).1 ++ ".json") _
      · exact runTablesWith_getKey_hit loads db tl _ _ q hmem
          (fun p hp => hall p (by simp [hp])) (List.nodup_cons.mp hnd).2

/-- After a fully successful loop over fresh file names, the names of the
files written are exactly the table names suffixed with `.json`. -/
theorem runTablesWith_names (loads : PyVal → Except PyExc PyVal) (db : Db) :
    ∀ (ts : List (String × List String)) (files : List (String × String)) (att : List String),
      (∀ p ∈ ts, hasKey db p.1 = true) → (ts.map fun p => p.1 ++ ".json").Nodup →
      (∀ p ∈ ts, getKey files (p.1 ++ ".json") = none) →
      (runTablesWith loads db ts files att).1.map Prod.fst =
        files.map Prod.fst ++ ts.map fun p => p.1 ++ ".json"
  | [], files, att, _, _, _ => by simp [runTablesWith]
  | (t, jc) :: tl, files, att, hall, hnd, hfresh => by
      have hexp := export_tableWith_eq_docsOf loads db (t, jc) (hall (t, jc) (by simp))
      rw [runTablesWith, hexp]
      dsimp only
      have hkey : getKey files (t ++ ".json") = none := hfresh (t, jc) (by simp)
      have hset : setKey files (t ++ ".json") (json_dumps (docsOf loads db (t, jc))) =
          files ++ [(t ++ ".json", json_dumps (docsOf loads db (t, jc)))] :=
        setKey_eq_append files _ _ hkey
      have hfresh' : ∀ p ∈ tl,
          getKey (setKey files (t ++ ".json") (json_dumps (docsOf loads db (t, jc))))
            (p.1 ++ ".json") = none := by
        intro p hp
        have hne : ¬ (t ++ ".json") = (p.1 ++ ".json") := by
          intro hEq
          have hm : p.1 ++ ".json" ∈ tl.map fun p' => p'.1 ++ ".json" :=
            List.mem_map_of_mem _ hp
          have hm' : (t ++ ".json") ∈ tl.map fun p' => p'.1 ++ ".json" := hEq ▸ hm
          exact (List.nodup_cons.mp hnd).1 hm'
        rw [getKey_setKey_ne files _ _ _ hne]
        exact hfresh p (by simp [hp])
      rw [runTablesWith_names loads db tl _ _ (fun p hp => hall p (by simp [hp]))
        (List.nodup_cons.mp hnd).2 hfresh', hset]
      simp

/-- C6: when every listed table is present, the run writes for each table
exactly one output file, named `<table>.json`, whose content is the
serialized JSON array of that table's row documents — one array element
per table row. -/
theorem c6_one_file_per_table (db : Db) (hall : ∀ p ∈ TABLES, hasKey db p.1 = true)
    (p : String × List String) (hp : p ∈ TABLES) (td : TableData)
    (htd : getKey db p.1 = some td) :
    (((runWith json_loads db).files.map Prod.fst).count (p.1 ++ ".json") = 1) ∧
    getKey (runWith json_loads db).files (p.1 ++ ".json") =
      some (json_dumps (docsOf json_loads db p)) ∧
    (docsOf json_loads db p).length = td.rows.length := by
  refine ⟨?_, ?_, docsOf_length json_loads db p td htd⟩
  · have hnames := runTablesWith_names json_loads db TABLES [] [] hall
      tables_fileNames_nodup (fun q _ => rfl)
    rw [runWith_files, hnames]
    simp only [List.map_nil, List.nil_append]
    exact List.count_eq_one_of_mem tables_fileNames_nodup (List.mem_map_of_mem _ hp)
  · rw [runWith_files]
    exact runTablesWith_getKey_hit json_loads db TABLES [] [] p hp hall
      tables_fileNames_nodup

/-- C6 witness: on a database with all twenty tables populated with one
row, `elements.json` is written exactly once with a one-element array. -/
theorem c6_one_file_per_table_witness :
    ((((runWith json_loads dbFull).files.map Prod.fst).count ("elements" ++ ".json")) = 1) ∧
    getKey (runWith json_loads dbFull).files ("elements" ++ ".json") =
      some (json_dumps (docsOf json_loads dbFull ("elements", []))) ∧
    (docsOf json_loads dbFull ("elements", [])).length = fullTd.rows.length :=
  c6_one_file_per_table dbFull (by decide) ("elements", []) (by decide) fullTd rfl

/-- C7: tables are attempted strictly in the static list order; when a
listed table is absent the run aborts right there with the query error,
and the output directory holds exactly the files of the tables processed
before it (no rollback). -/
theorem c7_abort_in_order (db : Db) (pre : List (String × List String)) (t : String)
    (jc : List String) (post : List (String × List String))
    (hsplit : TABLES = pre ++ (t, jc) :: post)
    (hpre : ∀ p ∈ pre, hasKey db p.1 = true) (hmiss : hasKey db t = false) :
    (runWith json_loads db).attempted = pre.map Prod.fst ++ [t] ∧
    (runWith json_loads db).error = some .OperationalError ∧
    (runWith json_loads db).files =
      pre.map fun p => (p.1 ++ ".json", json_dumps (docsOf json_loads db p)) := by
  have habort := runTablesWith_aborts json_loads db t jc post pre [] [] hpre hmiss
  have hpre_nodup : (pre.map fun p => p.1 ++ ".json").Nodup := by
    have hall : ((pre ++ (t, jc) :: post).map fun p => p.1 ++ ".json").Nodup := by
      rw [← hsplit]; exact tables_fileNames_nodup
    rw [List.map_append] at hall
    exact hall.of_append_left
  refine ⟨?_, ?_, ?_⟩
  · rw [runWith_attempted, hsplit]
    have h1 := congrArg (fun x => x.2.1) habort
    dsimp only at h1
    rw [List.nil_append] at h1
    exact h1
  · rw [runWith_error, hsplit]
    exact congrArg (fun x => x.2.2) habort
  · rw [runWith_files, hsplit]
    exact (congrArg (fun x => x.1) habort).trans
      (foldl_write_eq_map json_loads db pre hpre_nodup)

/-- C7 witness: with only the first two tables present the run attempts
`elements`, `element_matchups`, `rarities` in that order, fails at
`rarities`, and exactly the first two files remain. -/
theorem c7_abort_in_order_witness :
    (runWith json_loads dbTwo).attempted = ["elements", "element_matchups", "rarities"] ∧
    (runWith json_loads dbTwo).error = some .OperationalError ∧
    (runWith json_loads dbTwo).files =
      [("elements", ([] : List String)), ("element_matchups", [])].map
        (fun p => (p.1 ++ ".json", json_dumps (docsOf json_loads dbTwo p))) :=
  c7_abort_in_order dbTwo [("elements", []), ("element_matchups", [])] "rarities" []
    [("growth_stages", []), ("roles", ["stat_bias_json"]), ("natures", []),
     ("env_tags", []), ("training_styles", []), ("species", []), ("monster_forms", []),
     ("skills", []), ("skill_effects", ["condition_json"]), ("form_skills", []),
     ("status_effects", []), ("status_effect_components", ["condition_json"]),
     ("synergy_rules", ["condition_json", "modifier_json"]), ("items", []),
     ("egg_properties", []), ("evolutions", []), ("evolution_conditions", [])]
    rfl (by decide) rfl

/-- C8: the run is a deterministic function of what the per-table scans
return: two databases whose scans agree on every listed table give
identical run results — the same files, byte for byte.  Row order enters
only through the scan result itself, which is the claim's ordering
caveat. -/
theorem c8_deterministic (db₁ db₂ : Db)
    (h : ∀ p ∈ TABLES, getKey db₁ p.1 = getKey db₂ p.1) :
    runWith json_loads db₁ = runWith json_loads db₂ := by
  unfold runWith
  rw [runTablesWith_congr json_loads db₁ db₂ TABLES [] [] h]

/-- C8 witness: an extra table the static list never mentions does not
change a single byte of the output. -/
theorem c8_deterministic_witness :
    runWith json_loads dbFull = runWith json_loads dbExtra :=
  c8_deterministic dbFull dbExtra (by intro p hp; fin_cases hp <;> rfl)

/-- C9: each table file is the serialization of the row documents as a
JSON array — `"[]"` when the table is empty, otherwise multi-line, each
element two spaces deeper than the bracket — and `ensure_ascii=False`
escaping preserves every non-ASCII character of a string value literally:
the occurrence count of any character ≥ U+0080 in the serialized string
literal equals its count in the source string, so none is dropped or
replaced by a `\uXXXX` escape.  (The file text is then written through
`open(..., encoding="utf-8")`.) -/
theorem c9_array_serialization :
    json_dumps [] = "[]" ∧
    (∀ (d : Doc) (ds : List Doc), ∃ body : String,
       json_dumps (d :: ds) = "[\n  " ++ body ++ "\n]") ∧
    (∀ (s : String) (c : Char), 128 ≤ c.toNat →
       (dumpStr s).data.count c = s.data.count c) := by
  refine ⟨rfl, ?_, fun s c hc => count_dumpStr s c hc⟩
  intro d ds
  refine ⟨dumpVal 2 (.pDict d) ++ dumpArrTail 2 (ds.map .pDict), ?_⟩
  have h1 : json_dumps (d :: ds) =
      "[\n" ++ indentStr 2 ++ dumpVal 2 (.pDict d) ++ dumpArrTail 2 (ds.map .pDict) ++
        "\n" ++ indentStr 0 ++ "]" := rfl
  rw [h1]
  apply String.ext
  simp only [String.data_append, List.append_assoc]
  rfl

/-- C9 witness: a non-ASCII character (here `é`, U+00E9) appears exactly
as often in the serialized string literal as in the source string. -/
theorem c9_array_serialization_witness :
    (dumpStr "Pokéé").data.count 'é' = "Pokéé".data.count 'é' :=
  c9_array_serialization.2.2 "Pokéé" 'é' (by decide)

/-- C3 counterexample: the claim that "the connection is still closed
when an error terminates the per-table loop early" is false on the code:
`con.close()` is a plain statement after the loop with no `try`/`finally`
or `with` around it.  On a database holding only the `elements` table the
loop aborts at `element_matchups` and the close is skipped (`closed =
false`), although a file had already been written. -/
theorem c3_close_counterexample :
    (runWith json_loads dbOne).error = some .OperationalError ∧
    (runWith json_loads dbOne).files.map Prod.fst = ["elements.json"] ∧
    (runWith json_loads dbOne).closed = false :=
  ⟨rfl, rfl, rfl⟩

/-- C3 (amended): the handle is closed exactly on the success path —
`con.close()` runs iff the loop finishes, i.e. iff every listed table is
present in the database; any error exit skips the explicit close. -/
theorem c3_close_iff_success (loads : PyVal → Except PyExc PyVal) (db : Db) :
    (runWith loads db).closed = true ↔ ∀ p ∈ TABLES, hasKey db p.1 = true := by
  have h := runTablesWith_no_error_iff loads db TABLES [] []
  rw [runWith_closed, Option.isNone_iff_eq_none]
  exact h

/-- C3 witness: with every table present the loop completes and the
connection is closed. -/
theorem c3_close_iff_success_witness :
    (runWith json_loads dbFull).closed = true :=
  (c3_close_iff_success json_loads dbFull).mpr (by decide)

/-- C2 counterexample: the claim that a nonexistent database file makes
the run "fail with a connection error at open time, with no tables
processed" is false on the code: `sqlite3.connect` does not fail on a
missing file — it creates a fresh empty database (default mode, writable
directory) — so the loop starts, the first table `elements` IS processed,
and its query is what fails (`OperationalError: no such table`). -/
theorem c2_missing_db_counterexample :
    sqlite3_connect none = ([] : Db) ∧
    (run none).attempted = ["elements"] ∧
    (run none).error = some .OperationalError ∧
    export_table [] "elements" [] = .error .OperationalError :=
  ⟨rfl, rfl, rfl, rfl⟩

/-- C2 (amended): with a database path that has no file behind it, the
run opens a fresh empty database, attempts only the first listed table,
terminates with that table's query error, writes no output files, and
skips the close. -/
theorem c2_missing_db :
    (run none).files = [] ∧
    (run none).attempted = ["elements"] ∧
    (run none).error = some .OperationalError ∧
    (run none).closed = false :=
  ⟨rfl, rfl, rfl, rfl⟩
